import Mathlib

/-!
A verification development for the priority scheduling engine of the
Patient Appointment Queue System (the `project/dsa` package: `queue.py`,
`linked_list.py`, `scheduler.py`).

The Python code is shallowly embedded:
* Python `str` is Lean `String` (in this toolchain a packed `List Char`);
  the `str.lower` / `str.strip` methods are modelled by `pyLower` /
  `pyStrip` below, operating on the character list exactly as CPython
  does for ASCII data.
* Python `datetime` is the `DateTime` structure (year, month, day, hour,
  minute, second); Python compares datetimes field-lexicographically,
  which `dtLtP` / `dtLeP` mirror.  `datetime.min` is `DateTime.min`.
* `datetime.fromisoformat` is an external stdlib function, so every
  theorem is stated for an arbitrary parser `fromiso : String → Option
  DateTime` (`none` models a raised `ValueError`); a small concrete
  parser `fromisoModel` covering the repository's `YYYY-MM-DDTHH:MM[:SS]`
  data is used for concrete instances.
* Python's `list.sort`, a stable sort, is modelled by `List.mergeSort`.
* The singly linked list of `linked_list.py` is represented by the list
  of its node payloads; `next` pointers are the list structure itself.
-/

namespace PAQS

/-! ### Model of the Python string methods used by the code -/

/-- Python's `str.lower` (ASCII case mapping, as used by the repository's
priority labels). -/
def pyLower (s : String) : String := String.mk (s.data.map Char.toLower)

/-- Strip whitespace from both ends of a character list: Python's
`str.strip` on the underlying characters. -/
def stripData (l : List Char) : List Char :=
  (l.dropWhile Char.isWhitespace).rdropWhile Char.isWhitespace

/-- Python's `str.strip` (no arguments: removes leading and trailing
whitespace). -/
def pyStrip (s : String) : String := String.mk (stripData s.data)

/-- Python's `x or d` for a possibly-absent string `x`: `None` and the
empty string are falsy and give `d`. -/
def strOr (v : Option String) (d : String) : String :=
  match v with
  | some s => if s = "" then d else s
  | none => d

/-- Python's `x or d` when `x` is known to be a string: only the empty
string is falsy. -/
def strOrS (s d : String) : String := if s = "" then d else s

/-! ### Model of the Python `datetime` values used by the code -/

/-- A `datetime.datetime` value, to second precision (the repository's
data never carries sub-second components). -/
structure DateTime where
  year : Nat
  month : Nat
  day : Nat
  hour : Nat
  minute : Nat
  second : Nat
deriving DecidableEq, Repr

/-- `datetime.min`, i.e. 0001-01-01T00:00:00. -/
def DateTime.min : DateTime := ⟨1, 1, 1, 0, 0, 0⟩

/-- Python's `datetime <` comparison: field-lexicographic. -/
def dtLtP (a b : DateTime) : Prop :=
  a.year < b.year ∨ (a.year = b.year ∧
    (a.month < b.month ∨ (a.month = b.month ∧
      (a.day < b.day ∨ (a.day = b.day ∧
        (a.hour < b.hour ∨ (a.hour = b.hour ∧
          (a.minute < b.minute ∨ (a.minute = b.minute ∧
            a.second < b.second)))))))))

instance (a b : DateTime) : Decidable (dtLtP a b) := by
  unfold dtLtP; infer_instance

/-- Python's `datetime <=` comparison. -/
def dtLeP (a b : DateTime) : Prop := dtLtP a b ∨ a = b

instance (a b : DateTime) : Decidable (dtLeP a b) := by
  unfold dtLeP; infer_instance

/-- Zero-pad a number to two digits (helper for `isoformat`). -/
def pad2 (n : Nat) : String := if n < 10 then "0" ++ toString n else toString n

/-- Zero-pad a year to four digits (helper for `isoformat`). -/
def pad4 (n : Nat) : String :=
  if n < 10 then "000" ++ toString n
  else if n < 100 then "00" ++ toString n
  else if n < 1000 then "0" ++ toString n
  else toString n

/-- Python's `datetime.isoformat()` for values without sub-second
components: `YYYY-MM-DDTHH:MM:SS`. -/
def DateTime.isoformat (d : DateTime) : String :=
  pad4 d.year ++ "-" ++ pad2 d.month ++ "-" ++ pad2 d.day ++ "T" ++
    pad2 d.hour ++ ":" ++ pad2 d.minute ++ ":" ++ pad2 d.second

/-- A database value for the `created_at` column as seen by the code:
a `datetime`, a string, or SQL NULL / missing key (Python `None`). -/
inductive DBValue where
  | dt (d : DateTime)
  | str (s : String)
  | null
deriving DecidableEq, Repr

/-! ### queue.py -/

/-- `PRIORITY_ORDER` from `queue.py`:
critical=0 (highest), emergency=1, accident=2, normal=3 (lowest). -/
def PRIORITY_ORDER : List String := ["critical", "emergency", "accident", "normal"]

/-- The linear scan `for i, x in enumerate(PRIORITY_ORDER): if x == p: return i`
with final `return 3`. -/
def rankScan : List String → Nat → String → Nat
  | [], _, _ => 3
  | x :: xs, i, q => if x = q then i else rankScan xs (i + 1) q

/-- `priority_rank` from `queue.py`:
`p = (p or "normal").lower().strip()` then scan `PRIORITY_ORDER`.
The argument is `Option String` so that Python `None` is representable. -/
def priority_rank (p : Option String) : Nat :=
  rankScan PRIORITY_ORDER 0 (pyStrip (pyLower (strOr p "normal")))

/-- `QueueItem` from `queue.py`.  In every use in the repository the
`created_at` field holds a parsed `datetime` (the scheduler normalizes it
before constructing the item), so it is typed `DateTime` here. -/
structure QueueItem where
  appointment_id : Int
  name : String
  priority : String
  appointment_date : String
  appointment_time : String
  created_at : DateTime
deriving DecidableEq, Repr

/-- The dictionary produced by `QueueItem.to_dict` (consumed by the Flask
templates).  `created_at` is serialized to a string. -/
structure OutputDict where
  appointment_id : Int
  name : String
  priority : String
  appointment_date : String
  appointment_time : String
  created_at : String
deriving DecidableEq, Repr

/-- `QueueItem.to_dict` from `queue.py`.  The Python guard
`self.created_at.isoformat() if self.created_at else None` takes the
`isoformat` branch whenever `created_at` is a `datetime` (datetimes are
always truthy), which is the only case arising in the repository. -/
def QueueItem.to_dict (it : QueueItem) : OutputDict :=
  { appointment_id := it.appointment_id
    name := it.name
    priority := it.priority
    appointment_date := it.appointment_date
    appointment_time := it.appointment_time
    created_at := it.created_at.isoformat }

/-- `Queue.is_empty` from `queue.py`: `len(self._items) == 0`.  A FIFO
`Queue`'s `_items` list is modelled by a `List QueueItem`. -/
def Queue.is_empty (q : List QueueItem) : Bool := q.length == 0

/-- `Queue.enqueue`: `self._items.append(item)`. -/
def Queue.enqueue (q : List QueueItem) (it : QueueItem) : List QueueItem :=
  q ++ [it]

/-- `Queue.dequeue`: return `None` when empty, else `self._items.pop(0)`.
Returns the dequeued element together with the remaining state. -/
def Queue.dequeue (q : List QueueItem) : Option QueueItem × List QueueItem :=
  match q with
  | [] => (none, [])
  | x :: t => (some x, t)

/-- `Queue.peek`: return `None` when empty, else `self._items[0]`. -/
def Queue.peek (q : List QueueItem) : Option QueueItem :=
  match q with
  | [] => none
  | x :: _ => some x

/-- `PriorityQueue` from `queue.py`: one FIFO lane per entry of
`PRIORITY_ORDER`, i.e. four lanes indexed by rank 0–3. -/
structure PriorityQueue where
  q0 : List QueueItem
  q1 : List QueueItem
  q2 : List QueueItem
  q3 : List QueueItem
deriving DecidableEq, Repr

/-- A fresh `PriorityQueue()`: four empty lanes. -/
def PriorityQueue.empty : PriorityQueue := ⟨[], [], [], []⟩

/-- `PriorityQueue.is_empty`: all lanes empty. -/
def PriorityQueue.is_empty (pq : PriorityQueue) : Bool :=
  Queue.is_empty pq.q0 && Queue.is_empty pq.q1 &&
    Queue.is_empty pq.q2 && Queue.is_empty pq.q3

/-- `PriorityQueue.enqueue`: `self._queues[priority_rank(item.priority)]
.enqueue(item)`.  The lane index is the rank, which is always in `[0,3]`
(theorem `priority_rank_le_three`), so the list indexing is rendered as a
four-way dispatch. -/
def PriorityQueue.enqueue (pq : PriorityQueue) (it : QueueItem) : PriorityQueue :=
  let r := priority_rank (some it.priority)
  if r = 0 then { pq with q0 := Queue.enqueue pq.q0 it }
  else if r = 1 then { pq with q1 := Queue.enqueue pq.q1 it }
  else if r = 2 then { pq with q2 := Queue.enqueue pq.q2 it }
  else { pq with q3 := Queue.enqueue pq.q3 it }

/-- `PriorityQueue.dequeue`: scan the lanes from rank 0 to rank 3 and
dequeue from the first non-empty one; `None` when all are empty. -/
def PriorityQueue.dequeue (pq : PriorityQueue) : Option QueueItem × PriorityQueue :=
  if ¬ Queue.is_empty pq.q0 then
    ((Queue.dequeue pq.q0).1, { pq with q0 := (Queue.dequeue pq.q0).2 })
  else if ¬ Queue.is_empty pq.q1 then
    ((Queue.dequeue pq.q1).1, { pq with q1 := (Queue.dequeue pq.q1).2 })
  else if ¬ Queue.is_empty pq.q2 then
    ((Queue.dequeue pq.q2).1, { pq with q2 := (Queue.dequeue pq.q2).2 })
  else if ¬ Queue.is_empty pq.q3 then
    ((Queue.dequeue pq.q3).1, { pq with q3 := (Queue.dequeue pq.q3).2 })
  else (none, pq)

/-- `PriorityQueue.peek`: first item of the first non-empty lane. -/
def PriorityQueue.peek (pq : PriorityQueue) : Option QueueItem :=
  if ¬ Queue.is_empty pq.q0 then Queue.peek pq.q0
  else if ¬ Queue.is_empty pq.q1 then Queue.peek pq.q1
  else if ¬ Queue.is_empty pq.q2 then Queue.peek pq.q2
  else if ¬ Queue.is_empty pq.q3 then Queue.peek pq.q3
  else none

/-- `PriorityQueue.to_list`: concatenate the lanes in rank order. -/
def PriorityQueue.to_list (pq : PriorityQueue) : List QueueItem :=
  pq.q0 ++ pq.q1 ++ pq.q2 ++ pq.q3

/-- Total number of stored items (`PriorityQueue.__len__`). -/
def PriorityQueue.size (pq : PriorityQueue) : Nat :=
  pq.q0.length + pq.q1.length + pq.q2.length + pq.q3.length

/-! ### linked_list.py -/

/-- The payload of a `PatientNode` from `linked_list.py`.  The `next`
pointer is represented by the position of the node in a `List
PatientNode` (a singly linked chain of nodes is exactly a list).
`created_at` is `Any` in the source: "string or datetime from DB". -/
structure PatientNode where
  appointment_id : Int
  name : String
  priority : String
  appointment_date : String
  appointment_time : String
  created_at : DBValue
deriving DecidableEq, Repr

/-- An appointment row/dict from the `appointments` table, with the keys
the DSA code reads.  Absent keys (`dict.get` returning `None`) are
`none` / `DBValue.null`. -/
structure AppointmentDict where
  id : Int
  name : Option String
  patient_name : Option String
  priority : Option String
  appointment_date : Option String
  appointment_time : Option String
  created_at : DBValue
deriving DecidableEq, Repr

/-- The `PatientNode(...)` constructor call inside
`insert_from_appointment_dict`:
`name = a.get("name") or a.get("patient_name") or ""`,
`priority = (a.get("priority") or "normal").lower().strip()`,
dates default to `""`, `created_at` is passed through raw. -/
def nodeOfDict (a : AppointmentDict) : PatientNode :=
  { appointment_id := a.id
    name := strOr a.name (strOr a.patient_name "")
    priority := pyStrip (pyLower (strOr a.priority "normal"))
    appointment_date := strOr a.appointment_date ""
    appointment_time := strOr a.appointment_time ""
    created_at := a.created_at }

/-- The traversal in `insert_from_appointment_dict` that walks `next`
pointers to the last node and attaches the new node there. -/
def insertAtEnd : List PatientNode → PatientNode → List PatientNode
  | [], n => [n]
  | x :: xs, n => x :: insertAtEnd xs n

/-- `PatientLinkedList.insert_from_appointment_dict`: build the node from
the dict and append it at the end of the chain. -/
def insert_from_appointment_dict (l : List PatientNode) (a : AppointmentDict) :
    List PatientNode :=
  insertAtEnd l (nodeOfDict a)

/-- `PatientLinkedList.to_list`: traverse the chain collecting every
node. -/
def ll_to_list : List PatientNode → List PatientNode
  | [] => []
  | n :: t => n :: ll_to_list t

/-- `PatientLinkedList.remove_by_id`: unlink the first node whose
`appointment_id` matches; the boolean reports whether a removal
occurred.  Returns the new chain together with that boolean. -/
def remove_by_id : List PatientNode → Int → List PatientNode × Bool
  | [], _ => ([], false)
  | n :: t, i =>
    if n.appointment_id = i then (t, true)
    else
      let r := remove_by_id t i
      (n :: r.1, r.2)

/-! ### scheduler.py -/

/-- `_parse_created_at` from `scheduler.py` (the source name carries a
leading underscore): a `datetime` passes through, a non-empty string is
parsed by `datetime.fromisoformat` with `ValueError` mapped to
`datetime.min`, and everything else is `datetime.min`. -/
def parse_created_at (fromiso : String → Option DateTime) (v : DBValue) : DateTime :=
  match v with
  | .dt d => d
  | .str s => if s = "" then DateTime.min else (fromiso s).getD DateTime.min
  | .null => DateTime.min

/-- `_parse_appointment_datetime` from `scheduler.py`: strip both
components, fall back when either is blank, otherwise parse
`f"{date_str}T{time_str}"`, with `ValueError` mapped to the fallback.
(On the `str` arguments the code receives, the `or ""` guards are the
identity.) -/
def parse_appointment_datetime (fromiso : String → Option DateTime)
    (date_str time_str : String) (fallback : DateTime) : DateTime :=
  let d := pyStrip date_str
  let t := pyStrip time_str
  if d = "" ∨ t = "" then fallback
  else (fromiso (d ++ "T" ++ t)).getD fallback

/-- `build_queue_item` from `scheduler.py`.  `priority` is re-normalized
by `(priority or "normal").lower().strip()`; on the `str` fields the
`or ""` defaults are the identity. -/
def build_queue_item (appointment_id : Int) (name : String) (priority : String)
    (appointment_date : String) (appointment_time : String)
    (created_at : DateTime) : QueueItem :=
  { appointment_id := appointment_id
    name := name
    priority := pyStrip (pyLower (strOrS priority "normal"))
    appointment_date := appointment_date
    appointment_time := appointment_time
    created_at := created_at }

/-- One entry of the `enriched_items` list built by
`get_optimized_queue_list`: the tuple
`(priority_rank(prio), appt_dt, created, node)`. -/
structure Enriched where
  rank : Nat
  appt : DateTime
  created : DateTime
  node : PatientNode
deriving DecidableEq, Repr

/-- The body of the `for node in nodes` loop of
`get_optimized_queue_list`: normalize the label (with the
`if prio not in PRIORITY_ORDER: prio = "normal"` guard), parse
`created_at`, combine the appointment date and time, and package the
sort-key tuple. -/
def enrichNode (fromiso : String → Option DateTime) (node : PatientNode) : Enriched :=
  let p := pyStrip (pyLower (strOrS node.priority "normal"))
  let prio := if p ∈ PRIORITY_ORDER then p else "normal"
  let created := parse_created_at fromiso node.created_at
  let appt_dt := parse_appointment_datetime fromiso
    node.appointment_date node.appointment_time created
  { rank := priority_rank (some prio)
    appt := appt_dt
    created := created
    node := node }

/-- The comparison used by `enriched_items.sort(key=lambda x: (x[0],
x[1], x[2]))`: Python tuple comparison, lexicographic on (rank,
appointment datetime, creation datetime). -/
def entryLe (a b : Enriched) : Bool :=
  decide (a.rank < b.rank ∨ (a.rank = b.rank ∧
    (dtLtP a.appt b.appt ∨ (a.appt = b.appt ∧ dtLeP a.created b.created))))

/-- The `build_queue_item(...)` call inside the PriorityQueue-loading
loop of `get_optimized_queue_list`, applied to a traversed node. -/
def itemOfNode (fromiso : String → Option DateTime) (node : PatientNode) : QueueItem :=
  build_queue_item node.appointment_id node.name node.priority
    node.appointment_date node.appointment_time
    (parse_created_at fromiso node.created_at)

/-- The items the engine serves, in order: everything
`get_optimized_queue_list` does before the final `to_dict` conversion
(ingest into the linked list, traverse, enrich, stable sort, load into
the `PriorityQueue`, flatten). -/
def servingItems (fromiso : String → Option DateTime)
    (appointments : List AppointmentDict) : List QueueItem :=
  let patient_list := appointments.foldl insert_from_appointment_dict []
  let nodes := ll_to_list patient_list
  let enriched_items := nodes.map (enrichNode fromiso)
  let sorted_items := enriched_items.mergeSort entryLe
  let pq := sorted_items.foldl
    (fun pq e => pq.enqueue (itemOfNode fromiso e.node)) PriorityQueue.empty
  pq.to_list

/-- `get_optimized_queue_list` from `scheduler.py`:
`[x.to_dict() for x in pq.to_list()]` over the served items. -/
def get_optimized_queue_list (fromiso : String → Option DateTime)
    (appointments : List AppointmentDict) : List OutputDict :=
  (servingItems fromiso appointments).map QueueItem.to_dict

/-! ### A concrete `datetime.fromisoformat` instance

`fromisoModel` parses the exact shapes the repository produces
(`YYYY-MM-DD` + `T` + `HH:MM` or `HH:MM:SS`), for use in concrete
witnesses; the theorems themselves hold for every parser. -/

/-- Decimal value of a digit character, `none` otherwise. -/
def digitVal (c : Char) : Option Nat :=
  if c.isDigit then some (c.toNat - 48) else none

/-- Parse two digit characters. -/
def twoDigits (a b : Char) : Option Nat :=
  match digitVal a, digitVal b with
  | some x, some y => some (10 * x + y)
  | _, _ => none

/-- Parse four digit characters. -/
def fourDigits (a b c d : Char) : Option Nat :=
  match twoDigits a b, twoDigits c d with
  | some x, some y => some (100 * x + y)
  | _, _ => none

/-- Assemble a `DateTime` from parsed components, enforcing the field
ranges `datetime` enforces. -/
def mkDateTime (y mo d h mi s : Nat) : Option DateTime :=
  if 1 ≤ mo ∧ mo ≤ 12 ∧ 1 ≤ d ∧ d ≤ 31 ∧ h ≤ 23 ∧ mi ≤ 59 ∧ s ≤ 59 ∧
      1 ≤ y ∧ y ≤ 9999 then
    some ⟨y, mo, d, h, mi, s⟩
  else none

/-- A concrete model of `datetime.fromisoformat` covering the
`YYYY-MM-DDTHH:MM[:SS]` strings this repository feeds it. -/
def fromisoModel (s : String) : Option DateTime :=
  match s.data with
  | [y1, y2, y3, y4, '-', m1, m2, '-', d1, d2, 'T', h1, h2, ':', n1, n2] =>
    match fourDigits y1 y2 y3 y4, twoDigits m1 m2, twoDigits d1 d2,
        twoDigits h1 h2, twoDigits n1 n2 with
    | some y, some mo, some d, some h, some mi => mkDateTime y mo d h mi 0
    | _, _, _, _, _ => none
  | [y1, y2, y3, y4, '-', m1, m2, '-', d1, d2, 'T', h1, h2, ':', n1, n2, ':', s1, s2] =>
    match fourDigits y1 y2 y3 y4, twoDigits m1 m2, twoDigits d1 d2,
        twoDigits h1 h2, twoDigits n1 n2, twoDigits s1 s2 with
    | some y, some mo, some d, some h, some mi, some sec => mkDateTime y mo d h mi sec
    | _, _, _, _, _, _ => none
  | _ => none

/-! ### Character-level lemmas about the modelled string methods -/

theorem charToNat_inj {a b : Char} (h : a.toNat = b.toNat) : a = b :=
  Char.ext (UInt32.toNat.inj h)

theorem charToNat_ofNat {k : Nat} (h : k < 55296) : (Char.ofNat k).toNat = k := by
  have hv : k.isValidChar := Or.inl h
  simp [Char.ofNat, dif_pos hv, Char.ofNatAux, Char.toNat, UInt32.toNat]

theorem toLower_def (c : Char) :
    c.toLower = if c.toNat ≥ 65 ∧ c.toNat ≤ 90 then Char.ofNat (c.toNat + 32) else c :=
  rfl

theorem toNat_toLower (c : Char) :
    c.toLower.toNat = if c.toNat ≥ 65 ∧ c.toNat ≤ 90 then c.toNat + 32 else c.toNat := by
  rw [toLower_def]
  by_cases h : c.toNat ≥ 65 ∧ c.toNat ≤ 90
  · rw [if_pos h, if_pos h, charToNat_ofNat (by omega)]
  · rw [if_neg h, if_neg h]

theorem toLower_toLower (c : Char) : c.toLower.toLower = c.toLower := by
  by_cases h : c.toNat ≥ 65 ∧ c.toNat ≤ 90
  · have h1 : c.toLower.toNat = c.toNat + 32 := by rw [toNat_toLower, if_pos h]
    rw [toLower_def c.toLower, if_neg (by omega)]
  · have h1 : c.toLower = c := by rw [toLower_def, if_neg h]
    rw [h1, h1]

theorem isWhitespace_iff (c : Char) :
    c.isWhitespace = true ↔ (c.toNat = 32 ∨ c.toNat = 9 ∨ c.toNat = 13 ∨ c.toNat = 10) := by
  have hiff : ∀ a b : Char, a = b ↔ a.toNat = b.toNat := by
    intro a b
    constructor
    · intro h; rw [h]
    · exact charToNat_inj
  unfold Char.isWhitespace
  simp only [Bool.or_eq_true, decide_eq_true_eq]
  rw [hiff c ' ', hiff c '\t', hiff c '\r', hiff c '\n']
  constructor
  · rintro (((h | h) | h) | h) <;> simp_all
  · rintro (h | h | h | h) <;> simp_all

theorem isWhitespace_toLower (c : Char) :
    c.toLower.isWhitespace = c.isWhitespace := by
  by_cases h : c.toNat ≥ 65 ∧ c.toNat ≤ 90
  · have h1 : c.toLower.toNat = c.toNat + 32 := by rw [toNat_toLower, if_pos h]
    have h2 : c.toLower.isWhitespace = false := by
      rw [← Bool.not_eq_true, isWhitespace_iff]
      omega
    have h3 : c.isWhitespace = false := by
      rw [← Bool.not_eq_true, isWhitespace_iff]
      omega
    rw [h2, h3]
  · rw [toLower_def, if_neg h]

/-! ### List- and string-level lemmas for `pyLower` / `pyStrip` -/

theorem dropWhile_map_toLower (l : List Char) :
    (l.map Char.toLower).dropWhile Char.isWhitespace =
      (l.dropWhile Char.isWhitespace).map Char.toLower := by
  rw [List.dropWhile_map]
  have hfe : (Char.isWhitespace ∘ Char.toLower) = Char.isWhitespace :=
    funext isWhitespace_toLower
  rw [hfe]

theorem rdropWhile_map_toLower (l : List Char) :
    (l.map Char.toLower).rdropWhile Char.isWhitespace =
      (l.rdropWhile Char.isWhitespace).map Char.toLower := by
  unfold List.rdropWhile
  rw [← List.map_reverse, dropWhile_map_toLower, List.map_reverse]

theorem stripData_map_toLower (l : List Char) :
    stripData (l.map Char.toLower) = (stripData l).map Char.toLower := by
  unfold stripData
  rw [dropWhile_map_toLower, rdropWhile_map_toLower]

theorem dropWhile_stripData (l : List Char) :
    (stripData l).dropWhile Char.isWhitespace = stripData l := by
  unfold stripData
  have hdw : (l.dropWhile Char.isWhitespace).dropWhile Char.isWhitespace
      = l.dropWhile Char.isWhitespace := by
    rw [List.dropWhile_idempotent]
  obtain ⟨t, ht⟩ :=
    List.rdropWhile_prefix Char.isWhitespace (l := l.dropWhile Char.isWhitespace)
  cases hr : (l.dropWhile Char.isWhitespace).rdropWhile Char.isWhitespace with
  | nil => simp
  | cons c cs =>
    rw [hr] at ht
    by_cases hc : Char.isWhitespace c
    · exfalso
      have ha : l.dropWhile Char.isWhitespace = c :: (cs ++ t) := by
        rw [← ht]
        simp
      rw [ha] at hdw
      have hlen1 := congrArg List.length hdw
      simp only [List.dropWhile_cons, hc, if_pos, List.length_cons,
        List.length_append] at hlen1
      have hlen2 := (List.dropWhile_sublist (l := cs ++ t)
        (p := Char.isWhitespace)).length_le
      simp only [List.length_append] at hlen2
      omega
    · simp [List.dropWhile_cons, hc]

theorem stripData_idem (l : List Char) : stripData (stripData l) = stripData l := by
  have h1 : stripData (stripData l)
      = (stripData l).rdropWhile Char.isWhitespace := by
    show ((stripData l).dropWhile Char.isWhitespace).rdropWhile Char.isWhitespace
      = (stripData l).rdropWhile Char.isWhitespace
    rw [dropWhile_stripData]
  rw [h1]
  show ((l.dropWhile Char.isWhitespace).rdropWhile Char.isWhitespace).rdropWhile
      Char.isWhitespace = _
  rw [List.rdropWhile_idempotent]
  rfl

theorem pyLower_pyLower (s : String) : pyLower (pyLower s) = pyLower s := by
  unfold pyLower
  congr 1
  rw [List.map_map]
  exact List.map_congr_left (fun c _ => toLower_toLower c)

theorem pyStrip_pyStrip (s : String) : pyStrip (pyStrip s) = pyStrip s := by
  unfold pyStrip
  congr 1
  exact stripData_idem s.data

theorem pyLower_pyStrip (s : String) : pyLower (pyStrip s) = pyStrip (pyLower s) := by
  unfold pyLower pyStrip
  congr 1
  exact (stripData_map_toLower s.data).symm

/-- The central normalization fact: `strip(lower(·))` is idempotent, so a
label that has already been through the classifier's normalization is a
fixed point of it. -/
theorem normFix (s : String) :
    pyStrip (pyLower (pyStrip (pyLower s))) = pyStrip (pyLower s) := by
  rw [pyLower_pyStrip, pyLower_pyLower, pyStrip_pyStrip]

/-! ### Rank lemmas -/

/-- The classifier's rank, applied to a stored record's label — the rank
by which the layered queue and the spec's ordering criterion classify a
`QueueItem`. -/
def rankOf (it : QueueItem) : Nat := priority_rank (some it.priority)

/-- The due timestamp of a stored record, recomputed by the engine's own
parsing function (`appointment_date` + `appointment_time`, with the
record's parsed creation time as fallback). -/
def dueOf (fromiso : String → Option DateTime) (it : QueueItem) : DateTime :=
  parse_appointment_datetime fromiso it.appointment_date it.appointment_time
    it.created_at

/-- The parsed creation time carried by a stored record. -/
def createdOf (it : QueueItem) : DateTime := it.created_at

theorem rankScan_concrete (q : String) :
    rankScan PRIORITY_ORDER 0 q =
      if "critical" = q then 0
      else if "emergency" = q then 1
      else if "accident" = q then 2
      else 3 := by
  simp only [PRIORITY_ORDER, rankScan]
  split
  · rfl
  · split
    · rfl
    · split
      · rfl
      · split <;> rfl

theorem priority_rank_le_three (p : Option String) : priority_rank p ≤ 3 := by
  unfold priority_rank
  rw [rankScan_concrete]
  split
  · omega
  · split
    · omega
    · split <;> omega

theorem rankScan_of_not_mem {q : String} (h : q ∉ PRIORITY_ORDER) :
    rankScan PRIORITY_ORDER 0 q = 3 := by
  rw [rankScan_concrete]
  simp only [PRIORITY_ORDER, List.mem_cons, List.not_mem_nil, or_false] at h
  push_neg at h
  rw [if_neg (fun he => h.1 he.symm), if_neg (fun he => h.2.1 he.symm),
    if_neg (fun he => h.2.2.1 he.symm)]

/-- The label stored on the `QueueItem` that `build_queue_item` makes
from a node is a normalization fixed point, provided the node's own
label already went through `insert_from_appointment_dict`'s
normalization (as every node in the engine's pipeline did). -/
theorem item_label_fixed (z : String) :
    let p := pyStrip (pyLower z)
    let q := pyStrip (pyLower (strOrS p "normal"))
    q ≠ "" ∧ pyStrip (pyLower q) = q := by
  intro p q
  by_cases hp : p = ""
  · have hq : q = "normal" := by
      show pyStrip (pyLower (strOrS p "normal")) = "normal"
      rw [hp]
      rfl
    rw [hq]
    exact ⟨by decide, by decide⟩
  · have hq : q = p := by
      show pyStrip (pyLower (strOrS p "normal")) = p
      unfold strOrS
      rw [if_neg hp]
      exact normFix z
    rw [hq]
    exact ⟨hp, normFix z⟩

theorem enrichNode_rank (fromiso : String → Option DateTime) (n : PatientNode) :
    (enrichNode fromiso n).rank =
      priority_rank (some
        (if pyStrip (pyLower (strOrS n.priority "normal")) ∈ PRIORITY_ORDER
          then pyStrip (pyLower (strOrS n.priority "normal")) else "normal")) := by
  unfold enrichNode
  dsimp only

theorem nodeOfDict_priority (a : AppointmentDict) :
    (nodeOfDict a).priority = pyStrip (pyLower (strOr a.priority "normal")) := rfl

theorem itemOfNode_priority (fromiso : String → Option DateTime) (n : PatientNode) :
    (itemOfNode fromiso n).priority =
      pyStrip (pyLower (strOrS n.priority "normal")) := rfl

theorem priority_rank_eq_scan (s : String) :
    priority_rank (some s) =
      rankScan PRIORITY_ORDER 0 (pyStrip (pyLower (strOrS s "normal"))) := rfl

theorem priority_rank_normal : priority_rank (some "normal") = 3 := by decide

/-- The rank by which `PriorityQueue.enqueue` files the built item equals
the rank the scheduler computed for the sort key (the source's
"readability" duplicate of the classifier's rank). -/
theorem rank_enqueue_eq_rank_sort (fromiso : String → Option DateTime)
    (a : AppointmentDict) :
    rankOf (itemOfNode fromiso (nodeOfDict a)) =
      (enrichNode fromiso (nodeOfDict a)).rank := by
  obtain ⟨hqne, hqfix⟩ := item_label_fixed (strOr a.priority "normal")
  rw [enrichNode_rank, nodeOfDict_priority]
  unfold rankOf
  rw [itemOfNode_priority, nodeOfDict_priority]
  set q := pyStrip (pyLower
    (strOrS (pyStrip (pyLower (strOr a.priority "normal"))) "normal")) with hqdef
  have hq1 : strOrS q "normal" = q := by
    unfold strOrS
    rw [if_neg hqne]
  have hlhs : priority_rank (some q) = rankScan PRIORITY_ORDER 0 q := by
    rw [priority_rank_eq_scan, hq1, hqfix]
  rw [hlhs]
  by_cases hmem : q ∈ PRIORITY_ORDER
  · rw [if_pos hmem, hlhs]
  · rw [if_neg hmem, rankScan_of_not_mem hmem, priority_rank_normal]

/-- The due-timestamp component of the sort key equals the one
recomputable from the built item. -/
theorem due_item_eq_appt (fromiso : String → Option DateTime) (n : PatientNode) :
    dueOf fromiso (itemOfNode fromiso n) = (enrichNode fromiso n).appt := rfl

/-- The creation-timestamp component of the sort key equals the one
stored on the built item. -/
theorem created_item_eq (fromiso : String → Option DateTime) (n : PatientNode) :
    createdOf (itemOfNode fromiso n) = (enrichNode fromiso n).created := rfl

/-! ### Order lemmas for the sort comparison -/

theorem entryLe_iff (a b : Enriched) :
    entryLe a b = true ↔
      (a.rank < b.rank ∨ (a.rank = b.rank ∧
        (dtLtP a.appt b.appt ∨ (a.appt = b.appt ∧ dtLeP a.created b.created)))) := by
  unfold entryLe
  exact decide_eq_true_iff

theorem dt_cmp_total (x y : DateTime) : dtLtP x y ∨ x = y ∨ dtLtP y x := by
  rcases x with ⟨a1, a2, a3, a4, a5, a6⟩
  rcases y with ⟨b1, b2, b3, b4, b5, b6⟩
  simp only [dtLtP, DateTime.mk.injEq]
  omega

theorem dt_lt_trans {x y z : DateTime} (h1 : dtLtP x y) (h2 : dtLtP y z) :
    dtLtP x z := by
  rcases x with ⟨a1, a2, a3, a4, a5, a6⟩
  rcases y with ⟨b1, b2, b3, b4, b5, b6⟩
  rcases z with ⟨c1, c2, c3, c4, c5, c6⟩
  simp only [dtLtP] at h1 h2 ⊢
  omega

theorem dt_lt_irrefl (x : DateTime) : ¬ dtLtP x x := by
  rcases x with ⟨a1, a2, a3, a4, a5, a6⟩
  simp only [dtLtP]
  omega

theorem entryLe_total (a b : Enriched) : entryLe a b || entryLe b a := by
  rw [Bool.or_eq_true, entryLe_iff, entryLe_iff]
  rcases dt_cmp_total a.appt b.appt with h | h | h
  · rcases Nat.lt_trichotomy a.rank b.rank with hr | hr | hr
    · exact Or.inl (Or.inl hr)
    · exact Or.inl (Or.inr ⟨hr, Or.inl h⟩)
    · exact Or.inr (Or.inl hr)
  · rcases dt_cmp_total a.created b.created with hc | hc | hc
    · rcases Nat.lt_trichotomy a.rank b.rank with hr | hr | hr
      · exact Or.inl (Or.inl hr)
      · exact Or.inl (Or.inr ⟨hr, Or.inr ⟨h, Or.inl hc⟩⟩)
      · exact Or.inr (Or.inl hr)
    · rcases Nat.lt_trichotomy a.rank b.rank with hr | hr | hr
      · exact Or.inl (Or.inl hr)
      · exact Or.inl (Or.inr ⟨hr, Or.inr ⟨h, Or.inr hc⟩⟩)
      · exact Or.inr (Or.inl hr)
    · rcases Nat.lt_trichotomy a.rank b.rank with hr | hr | hr
      · exact Or.inl (Or.inl hr)
      · exact Or.inr (Or.inr ⟨hr.symm, Or.inr ⟨h.symm, Or.inl hc⟩⟩)
      · exact Or.inr (Or.inl hr)
  · rcases Nat.lt_trichotomy a.rank b.rank with hr | hr | hr
    · exact Or.inl (Or.inl hr)
    · exact Or.inr (Or.inr ⟨hr.symm, Or.inl h⟩)
    · exact Or.inr (Or.inl hr)

theorem entryLe_trans (a b c : Enriched) (h1 : entryLe a b) (h2 : entryLe b c) :
    entryLe a c := by
  rw [entryLe_iff] at h1 h2 ⊢
  rcases h1 with h1 | ⟨hr1, h1⟩
  · rcases h2 with h2 | ⟨hr2, _⟩
    · exact Or.inl (Nat.lt_trans h1 h2)
    · exact Or.inl (hr2 ▸ h1)
  · rcases h2 with h2 | ⟨hr2, h2⟩
    · exact Or.inl (hr1 ▸ h2)
    · refine Or.inr ⟨hr1.trans hr2, ?_⟩
      rcases h1 with h1 | ⟨ha1, h1⟩
      · rcases h2 with h2 | ⟨ha2, _⟩
        · exact Or.inl (dt_lt_trans h1 h2)
        · exact Or.inl (ha2 ▸ h1)
      · rcases h2 with h2 | ⟨ha2, h2⟩
        · exact Or.inl (ha1 ▸ h2)
        · refine Or.inr ⟨ha1.trans ha2, ?_⟩
          rcases h1 with h1 | h1
          · rcases h2 with h2 | h2
            · exact Or.inl (dt_lt_trans h1 h2)
            · exact Or.inl (h2 ▸ h1)
          · rcases h2 with h2 | h2
            · exact Or.inl (h1 ▸ h2)
            · exact Or.inr (h1.trans h2)

/-! ### Linked-list lemmas -/

theorem insertAtEnd_eq_append (l : List PatientNode) (n : PatientNode) :
    insertAtEnd l n = l ++ [n] := by
  induction l with
  | nil => rfl
  | cons x xs ih => simp [insertAtEnd, ih]

theorem ll_to_list_eq (l : List PatientNode) : ll_to_list l = l := by
  induction l with
  | nil => rfl
  | cons x xs ih => simp [ll_to_list, ih]

/-- Ingesting a snapshot into a fresh Record Store and traversing it is
the order-preserving identity: the traversed nodes are exactly the
snapshot's records, converted field-by-field, in the order given. -/
theorem foldl_insert_eq_map (apps : List AppointmentDict) (l : List PatientNode) :
    apps.foldl insert_from_appointment_dict l = l ++ apps.map nodeOfDict := by
  induction apps generalizing l with
  | nil => simp
  | cons a t ih =>
    simp only [List.foldl_cons, List.map_cons]
    rw [ih]
    unfold insert_from_appointment_dict
    rw [insertAtEnd_eq_append]
    simp

/-! ### Layered FIFO queue lemmas -/

theorem enqueue_def (pq : PriorityQueue) (it : QueueItem) :
    pq.enqueue it =
      if rankOf it = 0 then { pq with q0 := pq.q0 ++ [it] }
      else if rankOf it = 1 then { pq with q1 := pq.q1 ++ [it] }
      else if rankOf it = 2 then { pq with q2 := pq.q2 ++ [it] }
      else { pq with q3 := pq.q3 ++ [it] } := rfl

/-- Loading items into the layered queue distributes them to the lanes
selected by their rank, preserving relative order inside each lane. -/
theorem foldl_enqueue_eq (l : List QueueItem) (pq : PriorityQueue) :
    l.foldl PriorityQueue.enqueue pq =
      ⟨pq.q0 ++ l.filter (fun it => rankOf it == 0),
       pq.q1 ++ l.filter (fun it => rankOf it == 1),
       pq.q2 ++ l.filter (fun it => rankOf it == 2),
       pq.q3 ++ l.filter (fun it => rankOf it == 3)⟩ := by
  induction l generalizing pq with
  | nil => simp
  | cons x t ih =>
    rw [List.foldl_cons, ih, enqueue_def]
    have hr : rankOf x ≤ 3 := priority_rank_le_three _
    by_cases h0 : rankOf x = 0
    · simp [h0, List.filter_cons]
    · by_cases h1 : rankOf x = 1
      · simp [h0, h1, List.filter_cons]
      · by_cases h2 : rankOf x = 2
        · simp [h0, h1, h2, List.filter_cons]
        · have h3 : rankOf x = 3 := by omega
          simp [h0, h1, h2, h3, List.filter_cons]

/-- A list whose rank sequence is nondecreasing is recovered by
concatenating its per-rank filters in rank order. -/
theorem filter_ranks_of_sorted (l : List QueueItem)
    (hs : l.Pairwise (fun a b => rankOf a ≤ rankOf b)) :
    l.filter (fun it => rankOf it == 0) ++ (l.filter (fun it => rankOf it == 1) ++
      (l.filter (fun it => rankOf it == 2) ++ l.filter (fun it => rankOf it == 3))) = l := by
  induction l with
  | nil => rfl
  | cons x t ih =>
    rw [List.pairwise_cons] at hs
    obtain ⟨hx, ht⟩ := hs
    have hr : rankOf x ≤ 3 := priority_rank_le_three _
    have ih' := ih ht
    have hfnil : ∀ j : Nat, j < rankOf x → t.filter (fun it => rankOf it == j) = [] := by
      intro j hj
      rw [List.filter_eq_nil_iff]
      intro a ha
      have := hx a ha
      simp only [beq_iff_eq]
      omega
    by_cases h0 : rankOf x = 0
    · simp only [List.filter_cons, h0, show ((0 : Nat) == 0) = true from rfl,
        show ((0 : Nat) == 1) = false from rfl, show ((0 : Nat) == 2) = false from rfl,
        show ((0 : Nat) == 3) = false from rfl, ite_true, ite_false, Bool.false_eq_true,
        List.cons_append]
      rw [ih']
    · by_cases h1 : rankOf x = 1
      · have hf0 := hfnil 0 (by omega)
        have ih2 : t.filter (fun it => rankOf it == 1) ++
            (t.filter (fun it => rankOf it == 2) ++
              t.filter (fun it => rankOf it == 3)) = t := by
          rw [hf0] at ih'
          simpa using ih'
        simp only [List.filter_cons, h1, show ((1 : Nat) == 0) = false from rfl,
          show ((1 : Nat) == 1) = true from rfl, show ((1 : Nat) == 2) = false from rfl,
          show ((1 : Nat) == 3) = false from rfl, ite_true, ite_false,
          Bool.false_eq_true, List.cons_append]
        rw [hf0]
        simp only [List.nil_append, List.cons_append]
        rw [ih2]
      · by_cases h2 : rankOf x = 2
        · have hf0 := hfnil 0 (by omega)
          have hf1 := hfnil 1 (by omega)
          have ih2 : t.filter (fun it => rankOf it == 2) ++
              t.filter (fun it => rankOf it == 3) = t := by
            rw [hf0, hf1] at ih'
            simpa using ih'
          simp only [List.filter_cons, h2, show ((2 : Nat) == 0) = false from rfl,
            show ((2 : Nat) == 1) = false from rfl, show ((2 : Nat) == 2) = true from rfl,
            show ((2 : Nat) == 3) = false from rfl, ite_true, ite_false,
            Bool.false_eq_true, List.cons_append]
          rw [hf0, hf1]
          simp only [List.nil_append, List.cons_append]
          rw [ih2]
        · have h3 : rankOf x = 3 := by omega
          have hf0 := hfnil 0 (by omega)
          have hf1 := hfnil 1 (by omega)
          have hf2 := hfnil 2 (by omega)
          have ih2 : t.filter (fun it => rankOf it == 3) = t := by
            rw [hf0, hf1, hf2] at ih'
            simpa using ih'
          simp only [List.filter_cons, h3, show ((3 : Nat) == 0) = false from rfl,
            show ((3 : Nat) == 1) = false from rfl, show ((3 : Nat) == 2) = false from rfl,
            show ((3 : Nat) == 3) = true from rfl, ite_true, ite_false,
            Bool.false_eq_true, List.cons_append]
          rw [hf0, hf1, hf2]
          simp only [List.nil_append, List.cons_append]
          rw [ih2]

/-- Re-enqueueing a rank-sorted sequence into a fresh layered queue and
flattening it returns the sequence unchanged. -/
theorem pq_roundtrip (l : List QueueItem)
    (hs : l.Pairwise (fun a b => rankOf a ≤ rankOf b)) :
    (l.foldl PriorityQueue.enqueue PriorityQueue.empty).to_list = l := by
  rw [foldl_enqueue_eq]
  unfold PriorityQueue.to_list PriorityQueue.empty
  dsimp only
  simp only [List.nil_append, List.append_assoc]
  exact filter_ranks_of_sorted l hs

/-! ### The pipeline as a single stable sort -/

/-- The sort key computed for one snapshot record. -/
def enrichOfDict (fromiso : String → Option DateTime) (a : AppointmentDict) : Enriched :=
  enrichNode fromiso (nodeOfDict a)

/-- The per-record output mapping: ingest normalization, item
construction and dict conversion for a single record. -/
def outputDictOf (fromiso : String → Option DateTime) (a : AppointmentDict) : OutputDict :=
  (itemOfNode fromiso (nodeOfDict a)).to_dict

/-- The spec's description of the engine (§4.4 / claim C7), stated as a
definition to compare against the implementation: the per-record output
mapping applied to the snapshot stably sorted by
`(rank, dueTimestamp, createdAt)`. -/
def specSortedSchedule (fromiso : String → Option DateTime)
    (apps : List AppointmentDict) : List OutputDict :=
  ((apps.map (enrichOfDict fromiso)).mergeSort entryLe).map
    (fun e => (itemOfNode fromiso e.node).to_dict)

theorem enrichNode_node (fromiso : String → Option DateTime) (n : PatientNode) :
    (enrichNode fromiso n).node = n := by
  unfold enrichNode
  dsimp only

theorem entryLe_rank_le {a b : Enriched} (h : entryLe a b = true) :
    a.rank ≤ b.rank := by
  rw [entryLe_iff] at h
  rcases h with h | ⟨h, _⟩
  · omega
  · omega

/-- The served items of the pipeline are exactly the stable sort of the
enriched snapshot, mapped through item construction: the linked-list
ingest/traverse is the identity and the layered-queue round trip
preserves the sorted order. -/
theorem servingItems_eq (fromiso : String → Option DateTime)
    (apps : List AppointmentDict) :
    servingItems fromiso apps =
      ((apps.map (enrichOfDict fromiso)).mergeSort entryLe).map
        (fun e => itemOfNode fromiso e.node) := by
  unfold servingItems
  dsimp only
  rw [foldl_insert_eq_map, List.nil_append, ll_to_list_eq, List.map_map]
  have hmap : (List.map (enrichNode fromiso ∘ nodeOfDict) apps) =
      apps.map (enrichOfDict fromiso) := rfl
  rw [hmap]
  set sorted := (apps.map (enrichOfDict fromiso)).mergeSort entryLe with hsorted
  have hfold : sorted.foldl (fun pq e => pq.enqueue (itemOfNode fromiso e.node))
      PriorityQueue.empty =
      (sorted.map (fun e => itemOfNode fromiso e.node)).foldl
        PriorityQueue.enqueue PriorityQueue.empty := by
    rw [List.foldl_map]
  rw [hfold]
  apply pq_roundtrip
  rw [List.pairwise_map]
  have hPair : sorted.Pairwise (fun a b => entryLe a b) :=
    List.sorted_mergeSort entryLe_trans entryLe_total _
  refine hPair.imp_of_mem ?_
  intro a b ha hb hle
  have hma : a ∈ apps.map (enrichOfDict fromiso) := by
    rw [hsorted, List.mem_mergeSort] at ha
    exact ha
  have hmb : b ∈ apps.map (enrichOfDict fromiso) := by
    rw [hsorted, List.mem_mergeSort] at hb
    exact hb
  obtain ⟨da, _, hda⟩ := List.mem_map.mp hma
  obtain ⟨db, _, hdb⟩ := List.mem_map.mp hmb
  have hra : rankOf (itemOfNode fromiso a.node) = a.rank := by
    rw [← hda]
    unfold enrichOfDict
    rw [enrichNode_node]
    exact rank_enqueue_eq_rank_sort fromiso da
  have hrb : rankOf (itemOfNode fromiso b.node) = b.rank := by
    rw [← hdb]
    unfold enrichOfDict
    rw [enrichNode_node]
    exact rank_enqueue_eq_rank_sort fromiso db
  rw [hra, hrb]
  exact entryLe_rank_le hle

/-- The whole engine equals the spec's single stable sort followed by
the per-record output mapping. -/
theorem engine_eq_specSortedSchedule (fromiso : String → Option DateTime)
    (apps : List AppointmentDict) :
    get_optimized_queue_list fromiso apps = specSortedSchedule fromiso apps := by
  unfold get_optimized_queue_list specSortedSchedule
  rw [servingItems_eq, List.map_map]
  rfl

/-! ### Claim C4: the priority classifier -/

/-- The classifier as the spec describes it: case-normalize and trim,
then the fixed table `critical=0, emergency=1, accident=2, normal=3`,
with every other value — including empty and null — resolving to 3. -/
def rankSpec (p : Option String) : Nat :=
  match p with
  | none => 3
  | some s =>
    if pyStrip (pyLower s) = "critical" then 0
    else if pyStrip (pyLower s) = "emergency" then 1
    else if pyStrip (pyLower s) = "accident" then 2
    else 3

/-- C4: `priority_rank` is total, agrees with the spec's table after
case-normalizing and trimming (empty and null map to 3), and always
returns a rank in `[0,3]`. -/
theorem C4_priority_rank_total (p : Option String) :
    priority_rank p = rankSpec p ∧ priority_rank p ≤ 3 := by
  refine ⟨?_, priority_rank_le_three p⟩
  match p with
  | none => decide
  | some s =>
    by_cases hs : s = ""
    · subst hs
      decide
    · have h1 : strOr (some s) "normal" = s := by
        show (if s = "" then "normal" else s) = s
        rw [if_neg hs]
      have h2 : rankSpec (some s) =
          (if pyStrip (pyLower s) = "critical" then 0
            else if pyStrip (pyLower s) = "emergency" then 1
            else if pyStrip (pyLower s) = "accident" then 2 else 3) := rfl
      unfold priority_rank
      rw [h1, rankScan_concrete, h2]
      by_cases hc : pyStrip (pyLower s) = "critical"
      · rw [if_pos hc.symm, if_pos hc]
      · rw [if_neg (fun h => hc h.symm), if_neg hc]
        by_cases he : pyStrip (pyLower s) = "emergency"
        · rw [if_pos he.symm, if_pos he]
        · rw [if_neg (fun h => he h.symm), if_neg he]
          by_cases ha : pyStrip (pyLower s) = "accident"
          · rw [if_pos ha.symm, if_pos ha]
          · rw [if_neg (fun h => ha h.symm), if_neg ha]

/-- C4 witness: the classifier on a concrete raw label. -/
theorem C4_priority_rank_total_witness :
    priority_rank (some " CRITICAL ") = rankSpec (some " CRITICAL ") ∧
      priority_rank (some " CRITICAL ") ≤ 3 :=
  C4_priority_rank_total (some " CRITICAL ")

/-! ### Claim C5: due-timestamp and creation-timestamp parsing -/

/-- C5: the due timestamp equals the combined parse of the stripped
date and time when both are non-blank and the combination parses, and
otherwise equals the fallback; the parsed creation time equals the
record's `created_at` when it is a datetime or a parsable string, and
otherwise the minimum representable timestamp; and the sort key's
components are exactly these two parses.  All functions are total: no
input raises. -/
theorem C5_parse_fallbacks (fromiso : String → Option DateTime)
    (d t s : String) (fb dtv : DateTime) (n : PatientNode) :
    (pyStrip d ≠ "" → pyStrip t ≠ "" →
      fromiso (pyStrip d ++ "T" ++ pyStrip t) = some dtv →
      parse_appointment_datetime fromiso d t fb = dtv) ∧
    ((pyStrip d = "" ∨ pyStrip t = "" ∨
        fromiso (pyStrip d ++ "T" ++ pyStrip t) = none) →
      parse_appointment_datetime fromiso d t fb = fb) ∧
    (parse_created_at fromiso (DBValue.dt dtv) = dtv) ∧
    (s ≠ "" → fromiso s = some dtv →
      parse_created_at fromiso (DBValue.str s) = dtv) ∧
    ((s = "" ∨ fromiso s = none) →
      parse_created_at fromiso (DBValue.str s) = DateTime.min) ∧
    (parse_created_at fromiso DBValue.null = DateTime.min) ∧
    ((enrichNode fromiso n).created = parse_created_at fromiso n.created_at) ∧
    ((enrichNode fromiso n).appt = parse_appointment_datetime fromiso
      n.appointment_date n.appointment_time (parse_created_at fromiso n.created_at)) := by
  refine ⟨?_, ?_, rfl, ?_, ?_, rfl, ?_, ?_⟩
  · intro hd ht hp
    unfold parse_appointment_datetime
    rw [if_neg (by push_neg; exact ⟨hd, ht⟩), hp]
    rfl
  · intro h
    unfold parse_appointment_datetime
    rcases h with h | h | h
    · rw [if_pos (Or.inl h)]
    · rw [if_pos (Or.inr h)]
    · by_cases hd : pyStrip d = ""
      · rw [if_pos (Or.inl hd)]
      · by_cases ht : pyStrip t = ""
        · rw [if_pos (Or.inr ht)]
        · rw [if_neg (by push_neg; exact ⟨hd, ht⟩), h]
          rfl
  · intro hs hp
    have h2 : parse_created_at fromiso (DBValue.str s) =
        (if s = "" then DateTime.min else (fromiso s).getD DateTime.min) := rfl
    rw [h2, if_neg hs, hp]
    rfl
  · intro h
    have h2 : parse_created_at fromiso (DBValue.str s) =
        (if s = "" then DateTime.min else (fromiso s).getD DateTime.min) := rfl
    rw [h2]
    rcases h with h | h
    · rw [if_pos h]
    · by_cases hs : s = ""
      · rw [if_pos hs]
      · rw [if_neg hs, h]
        rfl
  · unfold enrichNode
    dsimp only
  · unfold enrichNode
    dsimp only

/-- C5 witness: the fallbacks at concrete inputs. -/
theorem C5_parse_fallbacks_witness :
    parse_appointment_datetime fromisoModel " 2025-02-02 " "09:30" DateTime.min =
        ⟨2025, 2, 2, 9, 30, 0⟩ ∧
      parse_appointment_datetime fromisoModel "" "09:30" ⟨2025, 1, 1, 0, 0, 0⟩ =
        ⟨2025, 1, 1, 0, 0, 0⟩ ∧
      parse_created_at fromisoModel (DBValue.str "garbage") = DateTime.min := by
  have h1 := (C5_parse_fallbacks fromisoModel " 2025-02-02 " "09:30" "x"
    DateTime.min ⟨2025, 2, 2, 9, 30, 0⟩
    ⟨1, "", "", "", "", DBValue.null⟩).1 (by decide) (by decide) (by decide)
  have h2 := ((C5_parse_fallbacks fromisoModel "" "09:30" "x"
    ⟨2025, 1, 1, 0, 0, 0⟩ ⟨2025, 1, 1, 0, 0, 0⟩
    ⟨1, "", "", "", "", DBValue.null⟩).2.1) (Or.inl (by decide))
  have h3 := ((C5_parse_fallbacks fromisoModel "" "" "garbage"
    DateTime.min DateTime.min
    ⟨1, "", "", "", "", DBValue.null⟩).2.2.2.2.1) (Or.inr (by decide))
  exact ⟨h1, h2, h3⟩

/-! ### Claim C8: removal by identifier from the record store -/

theorem remove_by_id_no_match (i : Int) :
    ∀ l : List PatientNode, (∀ m ∈ l, m.appointment_id ≠ i) →
      remove_by_id l i = (l, false) := by
  intro l
  induction l with
  | nil => intro _; rfl
  | cons m t ih =>
    intro h
    have hm : m.appointment_id ≠ i := h m (List.mem_cons_self m t)
    simp only [remove_by_id, if_neg hm]
    rw [ih (fun x hx => h x (List.mem_cons_of_mem m hx))]

theorem remove_by_id_first (i : Int) :
    ∀ (l1 : List PatientNode) (n : PatientNode) (l2 : List PatientNode),
      n.appointment_id = i → (∀ m ∈ l1, m.appointment_id ≠ i) →
      (remove_by_id (l1 ++ n :: l2) i).1 = l1 ++ l2 := by
  intro l1
  induction l1 with
  | nil =>
    intro n l2 hn _
    simp [remove_by_id, hn]
  | cons m t ih =>
    intro n l2 hn hml
    have hm : m.appointment_id ≠ i := hml m (List.mem_cons_self m t)
    simp only [List.cons_append, remove_by_id, if_neg hm, List.append_eq]
    rw [ih n l2 hn (fun x hx => hml x (List.mem_cons_of_mem m hx))]

theorem remove_by_id_found (i : Int) :
    ∀ l : List PatientNode,
      ((remove_by_id l i).2 = true ↔ ∃ n ∈ l, n.appointment_id = i) := by
  intro l
  induction l with
  | nil => simp [remove_by_id]
  | cons m t ih =>
    by_cases hm : m.appointment_id = i
    · simp [remove_by_id, hm]
    · simp only [remove_by_id, if_neg hm]
      rw [List.exists_mem_cons_iff]
      simp only [hm, false_or]
      exact ih

/-- C8: `remove_by_id` returns `true` exactly when some record matches;
it removes exactly the first matching record, leaving the rest in
order; and with no match it leaves the store unchanged (returning
`false`). -/
theorem C8_remove_by_id (l : List PatientNode) (i : Int) :
    ((remove_by_id l i).2 = true ↔ ∃ n ∈ l, n.appointment_id = i) ∧
    (∀ (l1 : List PatientNode) (n : PatientNode) (l2 : List PatientNode),
      l = l1 ++ n :: l2 → n.appointment_id = i →
      (∀ m ∈ l1, m.appointment_id ≠ i) → (remove_by_id l i).1 = l1 ++ l2) ∧
    ((∀ m ∈ l, m.appointment_id ≠ i) → remove_by_id l i = (l, false)) := by
  refine ⟨remove_by_id_found i l, ?_, remove_by_id_no_match i l⟩
  intro l1 n l2 hl hn hml
  rw [hl]
  exact remove_by_id_first i l1 n l2 hn hml

/-- C8 witness: removing the first of two matching records. -/
theorem C8_remove_by_id_witness :
    (remove_by_id [⟨5, "a", "normal", "", "", DBValue.null⟩,
        ⟨7, "b", "normal", "", "", DBValue.null⟩,
        ⟨7, "c", "normal", "", "", DBValue.null⟩] 7).1 =
      [⟨5, "a", "normal", "", "", DBValue.null⟩,
        ⟨7, "c", "normal", "", "", DBValue.null⟩] :=
  (C8_remove_by_id [⟨5, "a", "normal", "", "", DBValue.null⟩,
      ⟨7, "b", "normal", "", "", DBValue.null⟩,
      ⟨7, "c", "normal", "", "", DBValue.null⟩] 7).2.1
    [⟨5, "a", "normal", "", "", DBValue.null⟩]
    ⟨7, "b", "normal", "", "", DBValue.null⟩
    [⟨7, "c", "normal", "", "", DBValue.null⟩]
    (by decide) (by decide) (by decide)

/-! ### Claim C9: empty-queue dequeue and peek are not errors -/

/-- C9: dequeuing or peeking an empty layered queue (or an empty FIFO
lane) yields the explicit no-item result and leaves the queue
unchanged — in particular still empty. -/
theorem C9_empty_dequeue (pq : PriorityQueue) (q : List QueueItem) :
    (pq.is_empty = true → pq.dequeue = (none, pq) ∧ pq.peek = none) ∧
    (Queue.is_empty q = true → Queue.dequeue q = (none, q) ∧ Queue.peek q = none) := by
  constructor
  · intro h
    unfold PriorityQueue.is_empty at h
    simp only [Bool.and_eq_true] at h
    obtain ⟨⟨⟨h0, h1⟩, h2⟩, h3⟩ := h
    constructor
    · unfold PriorityQueue.dequeue
      simp [h0, h1, h2, h3]
    · unfold PriorityQueue.peek
      simp [h0, h1, h2, h3]
  · intro h
    unfold Queue.is_empty at h
    have hq : q = [] := by
      simpa using h
    subst hq
    exact ⟨rfl, rfl⟩

/-- C9 witness: the empty layered queue. -/
theorem C9_empty_dequeue_witness :
    PriorityQueue.empty.dequeue = (none, PriorityQueue.empty) ∧
      PriorityQueue.empty.peek = none :=
  (C9_empty_dequeue PriorityQueue.empty []).1 (by decide)

/-! ### Claims C3, C6, C7, C10: pipeline-level properties -/

/-- A small concrete snapshot used by several concrete instances. -/
def wApps : List AppointmentDict :=
  [⟨1, some "A", none, some "normal", some "2025-02-01", some "10:00",
      DBValue.str "2025-01-01T08:00"⟩,
   ⟨2, some "B", none, some "critical", some "2025-02-02", some "09:00",
      DBValue.str "2025-01-01T09:00"⟩,
   ⟨3, some "C", none, some "critical", some "2025-02-01", some "08:00",
      DBValue.str "2025-01-01T10:00"⟩]

theorem output_ids_eq (fromiso : String → Option DateTime)
    (apps : List AppointmentDict) :
    (get_optimized_queue_list fromiso apps).map OutputDict.appointment_id =
      ((apps.map (enrichOfDict fromiso)).mergeSort entryLe).map
        (fun e => e.node.appointment_id) := by
  unfold get_optimized_queue_list
  rw [servingItems_eq, List.map_map, List.map_map]
  rfl

theorem output_ids_perm (fromiso : String → Option DateTime)
    (apps : List AppointmentDict) :
    ((get_optimized_queue_list fromiso apps).map OutputDict.appointment_id).Perm
      (apps.map AppointmentDict.id) := by
  rw [output_ids_eq]
  have hp : ((apps.map (enrichOfDict fromiso)).mergeSort entryLe).Perm
      (apps.map (enrichOfDict fromiso)) := List.mergeSort_perm _ _
  have hp2 := hp.map (fun e => e.node.appointment_id)
  have heq : (apps.map (enrichOfDict fromiso)).map (fun e => e.node.appointment_id) =
      apps.map AppointmentDict.id := by
    rw [List.map_map]
    apply List.map_congr_left
    intro a _
    show (enrichOfDict fromiso a).node.appointment_id = a.id
    unfold enrichOfDict
    rw [enrichNode_node]
    rfl
  rw [heq] at hp2
  exact hp2

/-- C3: with pairwise-distinct ids, the engine's output has the same
length as the snapshot and carries each input id exactly once; the empty
snapshot yields the empty output. -/
theorem C3_no_data_loss (fromiso : String → Option DateTime)
    (apps : List AppointmentDict)
    (hnd : (apps.map AppointmentDict.id).Nodup) :
    (get_optimized_queue_list fromiso apps).length = apps.length ∧
    (∀ i ∈ apps.map AppointmentDict.id,
      ((get_optimized_queue_list fromiso apps).map OutputDict.appointment_id).count i
        = 1) ∧
    get_optimized_queue_list fromiso [] = [] := by
  have hperm := output_ids_perm fromiso apps
  refine ⟨?_, ?_, ?_⟩
  · have hlen := hperm.length_eq
    simpa using hlen
  · intro i hi
    rw [hperm.count_eq]
    exact List.count_eq_one_of_mem hnd hi
  · rw [engine_eq_specSortedSchedule]
    unfold specSortedSchedule
    simp

/-- C3 witness: a three-record snapshot with distinct ids. -/
theorem C3_no_data_loss_witness :
    (wApps.map AppointmentDict.id).Nodup ∧
      (get_optimized_queue_list fromisoModel wApps).length = wApps.length :=
  ⟨by decide, (C3_no_data_loss fromisoModel wApps (by decide)).1⟩

/-- An input record in serving order whose label is upper-case. -/
def c6dict : AppointmentDict :=
  ⟨1, some "Ann", none, some "NORMAL", some "2025-02-01", some "10:00",
    DBValue.str "2025-01-01T08:00"⟩

/-- C6 counterexample: a snapshot that is (trivially) already in serving
order whose scheduled output is *not* the snapshot itself — the record's
priority field comes back normalized ("normal"), not as the original
"NORMAL", so `get_optimized_queue_list(s) = s` fails. -/
theorem C6_counterexample :
    ([c6dict].map (enrichOfDict fromisoModel)).Pairwise
        (fun a b => entryLe a b = true) ∧
      (get_optimized_queue_list fromisoModel [c6dict]).map OutputDict.priority =
        ["normal"] ∧
      c6dict.priority = some "NORMAL" ∧ ("normal" : String) ≠ "NORMAL" := by
  refine ⟨List.pairwise_singleton _ _, ?_, rfl, by decide⟩
  rw [engine_eq_specSortedSchedule]
  unfold specSortedSchedule
  simp only [List.map_cons, List.map_nil, List.mergeSort_singleton]
  decide

/-- C6 (amended): scheduling a snapshot that is already in serving order
preserves it as a sequence — the records come back in exactly the input
order, each mapped by the engine's fixed per-record output
transformation (not the identity on fields). -/
theorem C6_sorted_input_preserved (fromiso : String → Option DateTime)
    (apps : List AppointmentDict)
    (h : (apps.map (enrichOfDict fromiso)).Pairwise (fun a b => entryLe a b = true)) :
    get_optimized_queue_list fromiso apps = apps.map (outputDictOf fromiso) := by
  rw [engine_eq_specSortedSchedule]
  unfold specSortedSchedule
  rw [List.mergeSort_of_sorted h, List.map_map]
  apply List.map_congr_left
  intro a _
  show (itemOfNode fromiso (enrichOfDict fromiso a).node).to_dict =
    outputDictOf fromiso a
  unfold enrichOfDict
  rw [enrichNode_node]
  rfl

/-- C6 witness: a concrete snapshot already in serving order. -/
theorem C6_sorted_input_preserved_witness :
    ([c6dict].map (enrichOfDict fromisoModel)).Pairwise
        (fun a b => entryLe a b = true) ∧
      get_optimized_queue_list fromisoModel [c6dict] =
        [c6dict].map (outputDictOf fromisoModel) :=
  ⟨by decide, C6_sorted_input_preserved fromisoModel [c6dict] (by decide)⟩

/-- C7: the pipeline equals the single stable sort followed by the
per-record output mapping; the linked-list ingest-and-traverse step is
an order-preserving identity; and re-enqueueing any rank-sorted
sequence into a fresh layered queue and flattening returns it
unchanged. -/
theorem C7_pipeline_refines_sort (fromiso : String → Option DateTime)
    (apps : List AppointmentDict) :
    get_optimized_queue_list fromiso apps = specSortedSchedule fromiso apps ∧
    apps.foldl insert_from_appointment_dict [] = apps.map nodeOfDict ∧
    ll_to_list (apps.map nodeOfDict) = apps.map nodeOfDict ∧
    (∀ l : List QueueItem, l.Pairwise (fun a b => rankOf a ≤ rankOf b) →
      (l.foldl PriorityQueue.enqueue PriorityQueue.empty).to_list = l) := by
  refine ⟨engine_eq_specSortedSchedule fromiso apps, ?_, ll_to_list_eq _,
    fun l hl => pq_roundtrip l hl⟩
  rw [foldl_insert_eq_map]
  simp

/-- C7 witness: the refinement at a concrete snapshot. -/
theorem C7_pipeline_refines_sort_witness :
    get_optimized_queue_list fromisoModel wApps =
      specSortedSchedule fromisoModel wApps :=
  (C7_pipeline_refines_sort fromisoModel wApps).1

/-- An input record whose label is whitespace only. -/
def c10dict : AppointmentDict :=
  ⟨1, some "Bo", none, some "  ", some "", some "", DBValue.null⟩

/-- C10 counterexample: the output priority field is *not* always the
lower-cased, trimmed original label — for a whitespace-only label the
lower-cased trimmed original is `""`, but the engine emits `"normal"`. -/
theorem C10_counterexample :
    (get_optimized_queue_list fromisoModel [c10dict]).map OutputDict.priority =
        ["normal"] ∧
      pyStrip (pyLower "  ") = "" ∧ c10dict.priority = some "  " ∧
      ("normal" : String) ≠ "" := by
  refine ⟨?_, by decide, rfl, by decide⟩
  rw [engine_eq_specSortedSchedule]
  unfold specSortedSchedule
  simp only [List.map_cons, List.map_nil, List.mergeSort_singleton]
  decide

/-- C10 (amended): the engine normalizes output fields: each output
record's priority is the lower-cased, trimmed original label whenever
that normalization is non-empty (so unrecognized labels like "URGENT!"
survive as "urgent!"), and is "normal" when the label is absent, empty,
or whitespace-only; the output created_at is the ISO string of the
parsed creation timestamp, so a missing or unparsable created_at
surfaces as "0001-01-01T00:00:00"; and the engine's output is exactly
the per-record normalizations of the snapshot, rearranged. -/
theorem C10_output_normalized (fromiso : String → Option DateTime)
    (apps : List AppointmentDict) (d : AppointmentDict) :
    ((get_optimized_queue_list fromiso apps).Perm
      (apps.map (outputDictOf fromiso))) ∧
    ((outputDictOf fromiso d).priority =
      (if pyStrip (pyLower (strOr d.priority "normal")) = "" then "normal"
        else pyStrip (pyLower (strOr d.priority "normal")))) ∧
    ((outputDictOf fromiso d).created_at =
      (parse_created_at fromiso d.created_at).isoformat) ∧
    ((d.created_at = DBValue.null ∨ d.created_at = DBValue.str "" ∨
        (∃ s, d.created_at = DBValue.str s ∧ fromiso s = none)) →
      (outputDictOf fromiso d).created_at = "0001-01-01T00:00:00") := by
  refine ⟨?_, ?_, rfl, ?_⟩
  · unfold get_optimized_queue_list
    rw [servingItems_eq, List.map_map]
    have hp : ((apps.map (enrichOfDict fromiso)).mergeSort entryLe).Perm
        (apps.map (enrichOfDict fromiso)) := List.mergeSort_perm _ _
    have hp2 := hp.map (fun e => (itemOfNode fromiso e.node).to_dict)
    have heq : (apps.map (enrichOfDict fromiso)).map
        (fun e => (itemOfNode fromiso e.node).to_dict) =
        apps.map (outputDictOf fromiso) := by
      rw [List.map_map]
      apply List.map_congr_left
      intro a _
      show (itemOfNode fromiso (enrichOfDict fromiso a).node).to_dict =
        outputDictOf fromiso a
      unfold enrichOfDict
      rw [enrichNode_node]
      rfl
    rw [heq] at hp2
    exact hp2
  · have hpr : (outputDictOf fromiso d).priority =
        pyStrip (pyLower
          (strOrS (pyStrip (pyLower (strOr d.priority "normal"))) "normal")) := rfl
    rw [hpr]
    by_cases hp : pyStrip (pyLower (strOr d.priority "normal")) = ""
    · rw [if_pos hp, hp]
      decide
    · rw [if_neg hp]
      unfold strOrS
      rw [if_neg hp]
      exact normFix (strOr d.priority "normal")
  · intro h
    have hc : (outputDictOf fromiso d).created_at =
        (parse_created_at fromiso d.created_at).isoformat := rfl
    rw [hc]
    have hmin : parse_created_at fromiso d.created_at = DateTime.min := by
      rcases h with h | h | ⟨s, hs, hn⟩
      · rw [h]
        rfl
      · rw [h]
        rfl
      · rw [hs]
        have h2 : parse_created_at fromiso (DBValue.str s) =
            (if s = "" then DateTime.min else (fromiso s).getD DateTime.min) := rfl
        rw [h2]
        by_cases hse : s = ""
        · rw [if_pos hse]
        · rw [if_neg hse, hn]
          rfl
    rw [hmin]
    decide

/-- A record with an unrecognized label and no creation timestamp. -/
def c10urgent : AppointmentDict :=
  ⟨2, some "Cy", none, some "URGENT!", some "", some "", DBValue.null⟩

/-- C10 witness: "URGENT!" survives as "urgent!" while a missing
created_at surfaces as the minimum timestamp's ISO string. -/
theorem C10_output_normalized_witness :
    (outputDictOf fromisoModel c10urgent).priority = "urgent!" ∧
      (outputDictOf fromisoModel c10urgent).created_at = "0001-01-01T00:00:00" := by
  constructor
  · have h := (C10_output_normalized fromisoModel [] c10urgent).2.1
    rw [h]
    decide
  · exact (C10_output_normalized fromisoModel [] c10urgent).2.2.2 (Or.inl rfl)

/-! ### Claim C2: strict level precedence of the layered FIFO queue -/

/-- The lane invariant maintained by `enqueue`: every stored item sits in
the lane selected by its rank. -/
def laneInv (pq : PriorityQueue) : Prop :=
  (∀ it ∈ pq.q0, rankOf it = 0) ∧ (∀ it ∈ pq.q1, rankOf it = 1) ∧
    (∀ it ∈ pq.q2, rankOf it = 2) ∧ (∀ it ∈ pq.q3, rankOf it = 3)

instance (pq : PriorityQueue) : Decidable (laneInv pq) := by
  unfold laneInv
  infer_instance

/-- Exhaustive description of one `dequeue` step: the first non-empty
lane in rank order loses its head, or all lanes are empty. -/
theorem dequeue_cases (pq : PriorityQueue) :
    (pq.q0 = [] ∧ pq.q1 = [] ∧ pq.q2 = [] ∧ pq.q3 = [] ∧ pq.dequeue = (none, pq)) ∨
    (∃ x t, pq.q0 = x :: t ∧ pq.dequeue = (some x, { pq with q0 := t })) ∨
    (∃ x t, pq.q0 = [] ∧ pq.q1 = x :: t ∧
      pq.dequeue = (some x, { pq with q1 := t })) ∨
    (∃ x t, pq.q0 = [] ∧ pq.q1 = [] ∧ pq.q2 = x :: t ∧
      pq.dequeue = (some x, { pq with q2 := t })) ∨
    (∃ x t, pq.q0 = [] ∧ pq.q1 = [] ∧ pq.q2 = [] ∧ pq.q3 = x :: t ∧
      pq.dequeue = (some x, { pq with q3 := t })) := by
  obtain ⟨q0, q1, q2, q3⟩ := pq
  cases q0 with
  | cons x t =>
    right; left
    exact ⟨x, t, rfl, rfl⟩
  | nil =>
    cases q1 with
    | cons x t =>
      right; right; left
      exact ⟨x, t, rfl, rfl, rfl⟩
    | nil =>
      cases q2 with
      | cons x t =>
        right; right; right; left
        exact ⟨x, t, rfl, rfl, rfl, rfl⟩
      | nil =>
        cases q3 with
        | cons x t =>
          right; right; right; right
          exact ⟨x, t, rfl, rfl, rfl, rfl, rfl⟩
        | nil =>
          left
          exact ⟨rfl, rfl, rfl, rfl, rfl⟩

theorem dequeue_size_lt (pq : PriorityQueue) (x : QueueItem) (pq' : PriorityQueue)
    (h : pq.dequeue = (some x, pq')) : pq'.size < pq.size := by
  rcases dequeue_cases pq with ⟨_, _, _, _, hd⟩ | ⟨y, t, hq, hd⟩ |
    ⟨y, t, _, hq, hd⟩ | ⟨y, t, _, _, hq, hd⟩ | ⟨y, t, _, _, _, hq, hd⟩ <;>
    rw [hd] at h
  · cases h
  all_goals
    injection h with h1 h2
    subst h2
    simp [PriorityQueue.size, hq]

/-- `drainAll`: repeatedly `dequeue` until the queue reports no item
(the spec's drain loop). -/
def drainAll (pq : PriorityQueue) : List QueueItem :=
  match h : pq.dequeue with
  | (none, _) => []
  | (some x, pq') => x :: drainAll pq'
termination_by pq.size
decreasing_by
  exact dequeue_size_lt pq x pq' h

theorem drainAll_eq_to_list (pq : PriorityQueue) : drainAll pq = pq.to_list := by
  generalize hn : pq.size = n
  induction n using Nat.strong_induction_on generalizing pq with
  | _ n ih =>
    rcases dequeue_cases pq with ⟨h0, h1, h2, h3, hd⟩ | ⟨y, t, hq, hd⟩ |
      ⟨y, t, hq0, hq, hd⟩ | ⟨y, t, hq0, hq1, hq, hd⟩ | ⟨y, t, hq0, hq1, hq2, hq, hd⟩
    · rw [drainAll, hd]
      unfold PriorityQueue.to_list
      rw [h0, h1, h2, h3]
      rfl
    · rw [drainAll, hd]
      dsimp only
      have hlt : ({ pq with q0 := t } : PriorityQueue).size < n := by
        rw [← hn]
        exact dequeue_size_lt pq y _ hd
      rw [ih _ hlt _ rfl]
      unfold PriorityQueue.to_list
      rw [hq]
      rfl
    · rw [drainAll, hd]
      dsimp only
      have hlt : ({ pq with q1 := t } : PriorityQueue).size < n := by
        rw [← hn]
        exact dequeue_size_lt pq y _ hd
      rw [ih _ hlt _ rfl]
      unfold PriorityQueue.to_list
      rw [hq0, hq]
      rfl
    · rw [drainAll, hd]
      dsimp only
      have hlt : ({ pq with q2 := t } : PriorityQueue).size < n := by
        rw [← hn]
        exact dequeue_size_lt pq y _ hd
      rw [ih _ hlt _ rfl]
      unfold PriorityQueue.to_list
      rw [hq0, hq1, hq]
      rfl
    · rw [drainAll, hd]
      dsimp only
      have hlt : ({ pq with q3 := t } : PriorityQueue).size < n := by
        rw [← hn]
        exact dequeue_size_lt pq y _ hd
      rw [ih _ hlt _ rfl]
      unfold PriorityQueue.to_list
      rw [hq0, hq1, hq2, hq]
      rfl

theorem pairwise_rank_const {l : List QueueItem} {k : Nat}
    (h : ∀ it ∈ l, rankOf it = k) :
    l.Pairwise (fun a b => rankOf a ≤ rankOf b) := by
  induction l with
  | nil => exact List.Pairwise.nil
  | cons x t ih =>
    refine List.Pairwise.cons ?_ (ih (fun it hit => h it (List.mem_cons_of_mem x hit)))
    intro b hb
    rw [h x (List.mem_cons_self x t), h b (List.mem_cons_of_mem x hb)]

/-- Every state reachable through the queue's own interface satisfies
the lane invariant: a fresh queue does, and `enqueue` preserves it
(each item is filed into the lane selected by its rank). -/
theorem laneInv_enqueue (pq : PriorityQueue) (h : laneInv pq) (it : QueueItem) :
    laneInv (pq.enqueue it) := by
  obtain ⟨h0, h1, h2, h3⟩ := h
  rw [enqueue_def]
  have hr : rankOf it ≤ 3 := priority_rank_le_three _
  by_cases e0 : rankOf it = 0
  · rw [if_pos e0]
    refine ⟨?_, h1, h2, h3⟩
    intro x hx
    dsimp only at hx
    rcases List.mem_append.mp hx with hx | hx
    · exact h0 x hx
    · rw [List.mem_singleton.mp hx]
      exact e0
  · rw [if_neg e0]
    by_cases e1 : rankOf it = 1
    · rw [if_pos e1]
      refine ⟨h0, ?_, h2, h3⟩
      intro x hx
      dsimp only at hx
      rcases List.mem_append.mp hx with hx | hx
      · exact h1 x hx
      · rw [List.mem_singleton.mp hx]
        exact e1
    · rw [if_neg e1]
      by_cases e2 : rankOf it = 2
      · rw [if_pos e2]
        refine ⟨h0, h1, ?_, h3⟩
        intro x hx
        dsimp only at hx
        rcases List.mem_append.mp hx with hx | hx
        · exact h2 x hx
        · rw [List.mem_singleton.mp hx]
          exact e2
      · rw [if_neg e2]
        refine ⟨h0, h1, h2, ?_⟩
        intro x hx
        dsimp only at hx
        rcases List.mem_append.mp hx with hx | hx
        · exact h3 x hx
        · rw [List.mem_singleton.mp hx]
          omega

/-- C2: under the lane invariant (which holds for the fresh queue and is
preserved by `enqueue`), `dequeue` never returns an item while an item
of numerically lower rank is present anywhere (it takes the head of the
first non-empty lane in rank order); the flattened sequence is
rank-nondecreasing, i.e. for ranks `r < r'` every rank-`r` item precedes
every rank-`r'` item; and draining by repeated dequeue yields exactly
that flattened sequence. -/
theorem C2_level_precedence (pq : PriorityQueue) (h : laneInv pq) :
    (∀ x pq', pq.dequeue = (some x, pq') →
      ∀ y ∈ pq.to_list, rankOf x ≤ rankOf y) ∧
    pq.to_list.Pairwise (fun a b => rankOf a ≤ rankOf b) ∧
    drainAll pq = pq.to_list ∧
    laneInv PriorityQueue.empty ∧
    (∀ it : QueueItem, laneInv (pq.enqueue it)) := by
  have hinv := h
  obtain ⟨h0, h1, h2, h3⟩ := h
  refine ⟨?_, ?_, drainAll_eq_to_list pq, by decide, laneInv_enqueue pq hinv⟩
  · intro x pq' hd y hy
    unfold PriorityQueue.to_list at hy
    simp only [List.mem_append] at hy
    have hyrank : 0 ≤ rankOf y ∧
        (y ∈ pq.q1 ∨ y ∈ pq.q2 ∨ y ∈ pq.q3 → 1 ≤ rankOf y) ∧
        (y ∈ pq.q2 ∨ y ∈ pq.q3 → 2 ≤ rankOf y) ∧
        (y ∈ pq.q3 → 3 ≤ rankOf y) := by
      refine ⟨Nat.zero_le _, ?_, ?_, ?_⟩
      · rintro (hm | hm | hm)
        · rw [h1 y hm]
        · rw [h2 y hm]
          omega
        · rw [h3 y hm]
          omega
      · rintro (hm | hm)
        · rw [h2 y hm]
        · rw [h3 y hm]
          omega
      · intro hm
        rw [h3 y hm]
    rcases dequeue_cases pq with ⟨_, _, _, _, hdq⟩ | ⟨z, t, hq, hdq⟩ |
      ⟨z, t, hq0, hq, hdq⟩ | ⟨z, t, hq0, hq1, hq, hdq⟩ | ⟨z, t, hq0, hq1, hq2, hq, hdq⟩ <;>
      rw [hdq] at hd
    · cases hd
    · injection hd with he _
      injection he with he
      rw [← he]
      have hmem : z ∈ pq.q0 := by
        rw [hq]
        exact List.mem_cons_self z t
      rw [h0 z hmem]
      exact Nat.zero_le _
    · injection hd with he _
      injection he with he
      rw [← he]
      have hmem : z ∈ pq.q1 := by
        rw [hq]
        exact List.mem_cons_self z t
      rw [h1 z hmem]
      rcases hy with ((hm | hm) | hm) | hm
      · rw [hq0] at hm
        cases hm
      · exact hyrank.2.1 (Or.inl hm)
      · exact hyrank.2.1 (Or.inr (Or.inl hm))
      · exact hyrank.2.1 (Or.inr (Or.inr hm))
    · injection hd with he _
      injection he with he
      rw [← he]
      have hmem : z ∈ pq.q2 := by
        rw [hq]
        exact List.mem_cons_self z t
      rw [h2 z hmem]
      rcases hy with ((hm | hm) | hm) | hm
      · rw [hq0] at hm
        cases hm
      · rw [hq1] at hm
        cases hm
      · exact hyrank.2.2.1 (Or.inl hm)
      · exact hyrank.2.2.1 (Or.inr hm)
    · injection hd with he _
      injection he with he
      rw [← he]
      have hmem : z ∈ pq.q3 := by
        rw [hq]
        exact List.mem_cons_self z t
      rw [h3 z hmem]
      rcases hy with ((hm | hm) | hm) | hm
      · rw [hq0] at hm
        cases hm
      · rw [hq1] at hm
        cases hm
      · rw [hq2] at hm
        cases hm
      · exact hyrank.2.2.2 hm
  · unfold PriorityQueue.to_list
    rw [List.pairwise_append, List.pairwise_append, List.pairwise_append]
    refine ⟨⟨⟨pairwise_rank_const h0, pairwise_rank_const h1, ?_⟩,
      pairwise_rank_const h2, ?_⟩, pairwise_rank_const h3, ?_⟩
    · intro a ha b hb
      rw [h0 a ha, h1 b hb]
      omega
    · intro a ha b hb
      simp only [List.mem_append] at ha
      rcases ha with ha | ha
      · rw [h0 a ha, h2 b hb]
        omega
      · rw [h1 a ha, h2 b hb]
        omega
    · intro a ha b hb
      simp only [List.mem_append] at ha
      rcases ha with (ha | ha) | ha
      · rw [h0 a ha, h3 b hb]
        omega
      · rw [h1 a ha, h3 b hb]
        omega
      · rw [h2 a ha, h3 b hb]
        omega

/-- A concrete layered queue satisfying the lane invariant. -/
def wPQ : PriorityQueue :=
  ⟨[⟨1, "a", "critical", "", "", DateTime.min⟩],
   [⟨2, "b", "emergency", "", "", DateTime.min⟩],
   [],
   [⟨3, "c", "normal", "", "", DateTime.min⟩,
    ⟨4, "d", "unknown", "", "", DateTime.min⟩]⟩

/-- C2 witness: the level-precedence conclusions at a concrete queue. -/
theorem C2_level_precedence_witness :
    laneInv wPQ ∧
      wPQ.to_list.Pairwise (fun a b => rankOf a ≤ rankOf b) :=
  ⟨by decide, (C2_level_precedence wPQ (by decide)).2.1⟩

/-! ### Claim C1: the output is sorted by the composite key, stably -/

theorem entryLe_due_le {a b : Enriched} (h : entryLe a b = true)
    (hr : a.rank = b.rank) : dtLeP a.appt b.appt := by
  rw [entryLe_iff] at h
  rcases h with h | ⟨_, h⟩
  · omega
  · rcases h with h | ⟨h, _⟩
    · exact Or.inl h
    · exact Or.inr h

theorem entryLe_created_le {a b : Enriched} (h : entryLe a b = true)
    (hr : a.rank = b.rank) (hd : a.appt = b.appt) : dtLeP a.created b.created := by
  rw [entryLe_iff] at h
  rcases h with h | ⟨_, h⟩
  · omega
  · rcases h with h | ⟨_, h⟩
    · exact absurd (hd ▸ h) (dt_lt_irrefl b.appt)
    · exact h

theorem entryLe_of_key_eq {a b : Enriched} (hr : a.rank = b.rank)
    (hd : a.appt = b.appt) (hc : a.created = b.created) : entryLe a b = true := by
  rw [entryLe_iff]
  exact Or.inr ⟨hr, Or.inr ⟨hd, Or.inr hc⟩⟩

/-- For any record of the snapshot, the key recomputed from the built
item by the code's own functions agrees with the key the engine sorted
by. -/
theorem item_key_compat (fromiso : String → Option DateTime) {e : Enriched}
    {apps : List AppointmentDict} (he : e ∈ apps.map (enrichOfDict fromiso)) :
    rankOf (itemOfNode fromiso e.node) = e.rank ∧
    dueOf fromiso (itemOfNode fromiso e.node) = e.appt ∧
    createdOf (itemOfNode fromiso e.node) = e.created := by
  obtain ⟨d, _, rfl⟩ := List.mem_map.mp he
  refine ⟨?_, ?_, ?_⟩
  · unfold enrichOfDict
    rw [enrichNode_node]
    exact rank_enqueue_eq_rank_sort fromiso d
  · unfold enrichOfDict
    rw [enrichNode_node]
    exact due_item_eq_appt fromiso (nodeOfDict d)
  · unfold enrichOfDict
    rw [enrichNode_node]
    rfl

/-- C1: the serving sequence is sorted ascending by the composite key
(rank, then due timestamp, then parsed creation time), each key being
recomputed from the record by the code's own functions; and the sort is
stable: the sequence can be tagged with pairwise-distinct snapshot
positions such that any two records with fully equal keys appear in
position order. -/
theorem C1_output_sorted (fromiso : String → Option DateTime)
    (apps : List AppointmentDict) :
    (servingItems fromiso apps).Chain' (fun x y =>
      rankOf x ≤ rankOf y ∧
      (rankOf x = rankOf y → dtLeP (dueOf fromiso x) (dueOf fromiso y)) ∧
      (rankOf x = rankOf y → dueOf fromiso x = dueOf fromiso y →
        dtLeP (createdOf x) (createdOf y))) ∧
    (∃ pairs : List (Nat × QueueItem),
      pairs.map Prod.snd = servingItems fromiso apps ∧
      (pairs.map Prod.fst).Nodup ∧
      (∀ p ∈ pairs, ∃ d, apps.get? p.1 = some d ∧
        p.2 = itemOfNode fromiso (nodeOfDict d)) ∧
      pairs.Pairwise (fun p q =>
        rankOf p.2 = rankOf q.2 → dueOf fromiso p.2 = dueOf fromiso q.2 →
          createdOf p.2 = createdOf q.2 → p.1 ≤ q.1)) := by
  constructor
  · rw [servingItems_eq, List.chain'_map]
    have hPair : ((apps.map (enrichOfDict fromiso)).mergeSort entryLe).Pairwise
        (fun a b => entryLe a b = true) :=
      List.sorted_mergeSort entryLe_trans entryLe_total _
    refine List.Pairwise.chain' (hPair.imp_of_mem ?_)
    intro a b ha hb hab
    rw [List.mem_mergeSort] at ha hb
    obtain ⟨hra, hda, hca⟩ := item_key_compat fromiso ha
    obtain ⟨hrb, hdb, hcb⟩ := item_key_compat fromiso hb
    rw [hra, hrb, hda, hdb, hca, hcb]
    exact ⟨entryLe_rank_le hab, fun hr => entryLe_due_le hab hr,
      fun hr hd => entryLe_created_le hab hr hd⟩
  · refine ⟨(((apps.map (enrichOfDict fromiso)).enum).mergeSort
      (List.enumLE entryLe)).map
        (fun p => (p.1, itemOfNode fromiso p.2.node)), ?_, ?_, ?_, ?_⟩
    · rw [List.map_map]
      have h2 : (((apps.map (enrichOfDict fromiso)).enum).mergeSort
          (List.enumLE entryLe)).map (fun x => x.2) =
          (apps.map (enrichOfDict fromiso)).mergeSort entryLe :=
        List.mergeSort_enum
      have h1 : (Prod.snd ∘ fun p : Nat × Enriched =>
          (p.1, itemOfNode fromiso p.2.node)) =
          (fun e => itemOfNode fromiso e.node) ∘ (fun x : Nat × Enriched => x.2) :=
        rfl
      rw [h1, ← List.map_map, h2, servingItems_eq]
    · rw [List.map_map]
      have h1 : (Prod.fst ∘ fun p : Nat × Enriched =>
          (p.1, itemOfNode fromiso p.2.node)) = Prod.fst := rfl
      rw [h1]
      have hperm : ((((apps.map (enrichOfDict fromiso)).enum).mergeSort
          (List.enumLE entryLe)).map Prod.fst).Perm
          (((apps.map (enrichOfDict fromiso)).enum).map Prod.fst) :=
        (List.mergeSort_perm _ _).map _
      rw [hperm.nodup_iff]
      exact List.nodup_enum_map_fst _
    · intro p hp
      obtain ⟨q, hq, rfl⟩ := List.mem_map.mp hp
      have hqm : q ∈ (apps.map (enrichOfDict fromiso)).enum :=
        List.mem_mergeSort.mp hq
      have hget : (apps.map (enrichOfDict fromiso)).get? q.1 = some q.2 :=
        List.mem_enum_iff_get?.mp hqm
      rw [List.get?_map] at hget
      cases happ : apps.get? q.1 with
      | none =>
        rw [happ] at hget
        cases hget
      | some d =>
        rw [happ] at hget
        injection hget with hget
        refine ⟨d, rfl, ?_⟩
        show itemOfNode fromiso q.2.node = itemOfNode fromiso (nodeOfDict d)
        rw [← hget]
        unfold enrichOfDict
        rw [enrichNode_node]
    · have hPairIdx : (((apps.map (enrichOfDict fromiso)).enum).mergeSort
          (List.enumLE entryLe)).Pairwise
          (fun p q => List.enumLE entryLe p q = true) :=
        List.sorted_mergeSort (List.enumLE_trans entryLe_trans)
          (List.enumLE_total entryLe_total) _
      rw [List.pairwise_map]
      refine hPairIdx.imp_of_mem ?_
      intro p q hp hq hle hr hd hc
      have hpm : p.2 ∈ apps.map (enrichOfDict fromiso) := by
        have h1 := List.mem_enum_iff_get?.mp (List.mem_mergeSort.mp hp)
        exact List.get?_mem h1
      have hqm : q.2 ∈ apps.map (enrichOfDict fromiso) := by
        have h1 := List.mem_enum_iff_get?.mp (List.mem_mergeSort.mp hq)
        exact List.get?_mem h1
      obtain ⟨hra, hda, hca⟩ := item_key_compat fromiso hpm
      obtain ⟨hrb, hdb, hcb⟩ := item_key_compat fromiso hqm
      rw [hra, hrb] at hr
      rw [hda, hdb] at hd
      rw [hca, hcb] at hc
      have hab : entryLe p.2 q.2 = true := entryLe_of_key_eq hr hd hc
      have hba : entryLe q.2 p.2 = true :=
        entryLe_of_key_eq hr.symm hd.symm hc.symm
      unfold List.enumLE at hle
      rw [if_pos hab, if_pos hba] at hle
      exact of_decide_eq_true hle

/-- C1 witness: the sortedness conclusion at a concrete snapshot. -/
theorem C1_output_sorted_witness :
    (servingItems fromisoModel wApps).Chain' (fun x y =>
      rankOf x ≤ rankOf y ∧
      (rankOf x = rankOf y → dtLeP (dueOf fromisoModel x) (dueOf fromisoModel y)) ∧
      (rankOf x = rankOf y → dueOf fromisoModel x = dueOf fromisoModel y →
        dtLeP (createdOf x) (createdOf y))) :=
  (C1_output_sorted fromisoModel wApps).1

end PAQS
